import Mathlib

/-!
# Verification of the arena game server (`src/server.js`)

Shallow embedding of the authoritative WebSocket game server.  JS numbers
appearing as coordinates are modelled by `ℚ` (order comparisons, `Math.max`,
`Math.min` and `Math.floor` are exact on the rationals the doubles denote);
potentially non-finite inbound numbers are modelled by `JsNum`.  Hit points,
lives and millisecond timestamps are integers in the program and are modelled
by `ℤ`.  The JS object `players` (string-keyed, insertion ordered, iterated by
`Object.keys`) is modelled by an association list.
-/

namespace GameServer

/-- A sanitized JS number: either a finite value or NaN/±Infinity
(`Number(...)` followed by the `Number.isFinite` check in the move branch). -/
inductive JsNum where
  | finite (v : ℚ)
  | nonfinite
deriving DecidableEq

/-- `const ARENA = { width: 1935, height: 1300, padding: 200 }`. -/
structure ArenaT where
  width : ℚ
  height : ℚ
  padding : ℚ
deriving DecidableEq

def ARENA : ArenaT := { width := 1935, height := 1300, padding := 200 }

/-- `const MOVE_CLAMP = (v, min, max) => Math.max(min, Math.min(max, v))`. -/
def MOVE_CLAMP (v mn mx : ℚ) : ℚ := max mn (min mx v)

def ATTACK_RANGE : ℚ := 50

def ATTACK_COOLDOWN_MS : ℤ := 500

def DMG : ℤ := 15

def MAX_MSGS_PER_SEC : ℕ := 40

/-- A player record: `{ x, y, character, hp, lives, lastAttackAt }`. -/
structure Player where
  x : ℚ
  y : ℚ
  character : Option String
  hp : ℤ
  lives : ℤ
  lastAttackAt : ℤ
deriving DecidableEq

/-- The `players` object: string id to player record, insertion ordered. -/
abbrev Store := List (String × Player)

/-- JS property read `obj[k]` on a string-keyed object. -/
def alookup {α : Type} (l : List (String × α)) (k : String) : Option α :=
  (l.find? (fun e => e.1 == k)).map (fun e => e.2)

/-- In-place mutation of the record stored at key `k` (a no-op if absent). -/
def aset {α : Type} (l : List (String × α)) (k : String) (v : α) : List (String × α) :=
  l.map (fun e => if e.1 == k then (k, v) else e)

/-- `delete obj[k]`. -/
def adel {α : Type} (l : List (String × α)) (k : String) : List (String × α) :=
  l.filter (fun e => !(e.1 == k))

/-- `Object.keys(obj)`. -/
def akeys {α : Type} (l : List (String × α)) : List String :=
  l.map (fun e => e.1)

section ALookupLemmas

variable {α : Type}

theorem alookup_nil (k : String) : alookup ([] : List (String × α)) k = none := rfl

theorem aset_nil (k : String) (v : α) : aset ([] : List (String × α)) k v = [] := rfl

theorem adel_nil (k : String) : adel ([] : List (String × α)) k = [] := rfl

theorem alookup_cons (k' : String) (v : α) (l : List (String × α)) (k : String) :
    alookup ((k', v) :: l) k = if k' = k then some v else alookup l k := by
  by_cases h : k' = k
  · simp [alookup, List.find?, h]
  · have hb : (k' == k) = false := by simp [h]
    simp [alookup, List.find?, hb, h]

theorem aset_cons (k' : String) (v' : α) (l : List (String × α)) (k : String) (v : α) :
    aset ((k', v') :: l) k v =
      (if k' = k then (k, v) else (k', v')) :: aset l k v := by
  by_cases h : k' = k <;> simp [aset, h]

theorem adel_cons (k' : String) (v' : α) (l : List (String × α)) (k : String) :
    adel ((k', v') :: l) k = if k' = k then adel l k else (k', v') :: adel l k := by
  by_cases h : k' = k <;> simp [adel, h]

theorem alookup_aset_self {l : List (String × α)} {k : String} {v₀ : α} (v : α)
    (h : alookup l k = some v₀) : alookup (aset l k v) k = some v := by
  induction l with
  | nil => simp [alookup] at h
  | cons e l ih =>
    obtain ⟨k', v'⟩ := e
    rw [aset_cons]
    by_cases hk : k' = k
    · simp [hk, alookup_cons]
    · rw [alookup_cons] at h
      rw [if_neg hk, alookup_cons, if_neg hk]
      rw [if_neg hk] at h
      exact ih h

theorem alookup_aset_ne {k' k : String} (hne : k' ≠ k) (l : List (String × α)) (v : α) :
    alookup (aset l k v) k' = alookup l k' := by
  induction l with
  | nil => simp [alookup, aset]
  | cons e l ih =>
    obtain ⟨k₀, v₀⟩ := e
    rw [aset_cons]
    by_cases hk : k₀ = k
    · rw [if_pos hk, alookup_cons, alookup_cons, hk]
      rw [if_neg (fun h => hne h.symm), if_neg (fun h => hne h.symm)]
      exact ih
    · rw [if_neg hk, alookup_cons, alookup_cons]
      by_cases hk' : k₀ = k'
      · simp [hk']
      · rw [if_neg hk', if_neg hk']
        exact ih

theorem aset_absent {l : List (String × α)} {k : String} (h : alookup l k = none) (v : α) :
    aset l k v = l := by
  induction l with
  | nil => simp [aset]
  | cons e l ih =>
    obtain ⟨k₀, v₀⟩ := e
    rw [alookup_cons] at h
    by_cases hk : k₀ = k
    · rw [if_pos hk] at h; exact absurd h (by simp)
    · rw [if_neg hk] at h
      rw [aset_cons, if_neg hk, ih h]

theorem alookup_adel_self (l : List (String × α)) (k : String) :
    alookup (adel l k) k = none := by
  induction l with
  | nil => simp [alookup, adel]
  | cons e l ih =>
    obtain ⟨k₀, v₀⟩ := e
    rw [adel_cons]
    by_cases hk : k₀ = k
    · rw [if_pos hk]; exact ih
    · rw [if_neg hk, alookup_cons, if_neg hk]; exact ih

theorem alookup_adel_ne {k' k : String} (hne : k' ≠ k) (l : List (String × α)) :
    alookup (adel l k) k' = alookup l k' := by
  induction l with
  | nil => simp [alookup, adel]
  | cons e l ih =>
    obtain ⟨k₀, v₀⟩ := e
    rw [adel_cons]
    by_cases hk : k₀ = k
    · rw [if_pos hk, alookup_cons, hk, if_neg (fun h => hne h.symm)]
      exact ih
    · rw [if_neg hk, alookup_cons, alookup_cons]
      by_cases hk' : k₀ = k'
      · simp [hk']
      · rw [if_neg hk', if_neg hk']
        exact ih

theorem akeys_aset (l : List (String × α)) (k : String) (v : α) :
    akeys (aset l k v) = akeys l := by
  induction l with
  | nil => simp [akeys, aset]
  | cons e l ih =>
    obtain ⟨k₀, v₀⟩ := e
    rw [aset_cons]
    by_cases hk : k₀ = k
    · rw [if_pos hk]
      simp only [akeys, List.map_cons]
      rw [hk]
      exact congrArg _ (by simpa [akeys] using ih)
    · rw [if_neg hk]
      simp only [akeys, List.map_cons]
      exact congrArg _ (by simpa [akeys] using ih)

theorem alookup_mem {l : List (String × α)} {k : String} {v : α}
    (h : alookup l k = some v) : (k, v) ∈ l := by
  induction l with
  | nil => simp [alookup] at h
  | cons e l ih =>
    obtain ⟨k₀, v₀⟩ := e
    rw [alookup_cons] at h
    by_cases hk : k₀ = k
    · rw [if_pos hk] at h
      obtain rfl := Option.some.inj h
      subst hk
      exact List.mem_cons_self _ _
    · rw [if_neg hk] at h
      exact List.mem_cons_of_mem _ (ih h)

theorem mem_of_alookup_ne_none {l : List (String × α)} {k : String}
    (h : alookup l k ≠ none) : k ∈ akeys l := by
  induction l with
  | nil => simp [alookup] at h
  | cons e l ih =>
    obtain ⟨k₀, v₀⟩ := e
    rw [alookup_cons] at h
    by_cases hk : k₀ = k
    · simp [akeys, hk]
    · rw [if_neg hk] at h
      simp only [akeys, List.map_cons]
      exact List.mem_cons_of_mem _ (ih h)

theorem alookup_eq_none_of_not_mem {l : List (String × α)} {k : String}
    (h : k ∉ akeys l) : alookup l k = none := by
  induction l with
  | nil => simp [alookup]
  | cons e l ih =>
    obtain ⟨k₀, v₀⟩ := e
    simp only [akeys, List.map_cons, List.mem_cons] at h
    push_neg at h
    rw [alookup_cons, if_neg (fun hh => h.1 hh.symm)]
    exact ih (by simpa [akeys] using h.2)

theorem alookup_ne_none_of_mem {l : List (String × α)} {k : String}
    (h : k ∈ akeys l) : alookup l k ≠ none := by
  induction l with
  | nil => simp [akeys] at h
  | cons e l ih =>
    obtain ⟨k₀, v₀⟩ := e
    rw [alookup_cons]
    by_cases hk : k₀ = k
    · rw [if_pos hk]
      simp
    · rw [if_neg hk]
      simp only [akeys, List.map_cons, List.mem_cons] at h
      rcases h with h | h
      · exact absurd h.symm hk
      · exact ih (by simpa [akeys] using h)

theorem alookup_of_mem_nodup {l : List (String × α)} {k : String} {v : α}
    (hn : (akeys l).Nodup) (hm : (k, v) ∈ l) : alookup l k = some v := by
  induction l with
  | nil => simp at hm
  | cons e l ih =>
    obtain ⟨k₀, v₀⟩ := e
    simp only [akeys, List.map_cons, List.nodup_cons] at hn
    rcases List.mem_cons.mp hm with h | h
    · simp only [Prod.mk.injEq] at h
      obtain ⟨rfl, rfl⟩ := h
      rw [alookup_cons, if_pos rfl]
    · have hk : k₀ ≠ k := by
        intro hkk
        exact hn.1 (hkk ▸ (by simpa [akeys] using List.mem_map_of_mem (fun e => e.1) h))
      rw [alookup_cons, if_neg hk]
      exact ih (by simpa [akeys] using hn.2) h

end ALookupLemmas

/-- Broadcast (or, for `error`, single-socket) outbound events. -/
inductive Event where
  | spawn (id : String) (state : Player)
  | update (id : String) (x y : ℚ)
  | damage (id : String) (hp : ℤ)
  | dead (id : String) (x y : ℚ) (hp lives : ℤ)
  | eliminated (id : String)
  | remove (id : String)
  | healed (id : String) (hp : ℤ)
deriving DecidableEq

/-- A successfully parsed inbound message (`JSON.parse` succeeded).
`select` carries `(data.character || "").toString()`, so a falsy/absent
character field is the empty string.  `move` carries `data.position` (`none`
when the field is falsy/absent) whose coordinates have been run through
`Number(...)` (`JsNum`).  `unknown` is any other parsed value: no branch of
the handler matches it, so it falls through. -/
inductive Msg where
  | select (character : String)
  | move (position : Option (JsNum × JsNum))
  | attack
  | unknown
deriving DecidableEq

/-- Result of running the message handler body: either the new store plus the
list of broadcast events (in emission order), or an uncaught exception
escaping the handler. -/
inductive Outcome where
  | ok (store : Store) (events : List Event)
  | thrown
deriving DecidableEq

/-- `Math.floor(Math.random() * (ARENA.width - ARENA.padding * 2) + ARENA.padding)`
with `r` standing for the `Math.random()` draw. -/
def spawnX (r : ℚ) : ℚ :=
  ((⌊r * (ARENA.width - ARENA.padding * 2) + ARENA.padding⌋ : ℤ) : ℚ)

/-- `Math.floor(Math.random() * (ARENA.height - ARENA.padding * 2) + ARENA.padding)`. -/
def spawnY (r : ℚ) : ℚ :=
  ((⌊r * (ARENA.height - ARENA.padding * 2) + ARENA.padding⌋ : ℤ) : ℚ)

/-- The player record created on admission (`players[playerId] = {...}`),
with `r1`, `r2` the two `Math.random()` draws. -/
def initPlayer (r1 r2 : ℚ) : Player :=
  { x := spawnX r1, y := spawnY r2, character := none, hp := 100, lives := 2,
    lastAttackAt := 0 }

/-- Accumulator threaded through the `Object.keys(players).forEach` loop of
the attack branch: current store, events broadcast so far, and the index of
the next unused `Math.random()` draw. -/
structure AtkAcc where
  store : Store
  events : List Event
  rIdx : ℕ
deriving DecidableEq

/-- One iteration of the attack `forEach` body for key `otherId` (the
`otherId === playerId` skip is applied by the caller).  `ax, ay` are the
attacker's coordinates.  `Math.hypot(dx,dy) <= ATTACK_RANGE` is embedded as
`dx^2 + dy^2 <= ATTACK_RANGE^2`, which is equivalent for the nonnegative
range.  `(target.hp || 100)` reads 100 when `hp` is 0 (falsy);
`(target.lives ?? 2)` is the stored value since `lives` is always present. -/
def attackStep (ax ay : ℚ) (rnd : ℕ → ℚ) (acc : AtkAcc) (otherId : String) : AtkAcc :=
  match alookup acc.store otherId with
  | none => acc
  | some target =>
    let dx := ax - target.x
    let dy := ay - target.y
    if dx ^ 2 + dy ^ 2 ≤ ATTACK_RANGE ^ 2 then
      let newHp := max 0 ((if target.hp = 0 then 100 else target.hp) - DMG)
      let target1 : Player := { target with hp := newHp }
      if newHp ≤ 0 then
        let newLives := max 0 (target1.lives - 1)
        if newLives > 0 then
          let nx := spawnX (rnd acc.rIdx)
          let ny := spawnY (rnd (acc.rIdx + 1))
          let target2 : Player := { target1 with x := nx, y := ny, hp := 100, lives := newLives }
          { store := aset acc.store otherId target2,
            events := acc.events ++ [Event.damage otherId newHp,
              Event.dead otherId nx ny 100 newLives],
            rIdx := acc.rIdx + 2 }
        else
          { store := adel acc.store otherId,
            events := acc.events ++ [Event.damage otherId newHp,
              Event.eliminated otherId, Event.remove otherId],
            rIdx := acc.rIdx }
      else
        { store := aset acc.store otherId target1,
          events := acc.events ++ [Event.damage otherId newHp],
          rIdx := acc.rIdx }
    else acc

/-- The `forEach` callback of the attack branch: skip the attacker's own key
(`if (otherId === playerId) return`), otherwise run the damage body. -/
def attackForEachBody (playerId : String) (ax ay : ℚ) (rnd : ℕ → ℚ)
    (a : AtkAcc) (otherId : String) : AtkAcc :=
  if otherId == playerId then a else attackStep ax ay rnd a otherId

/-- The attack branch (`data.type === "attack" && players[playerId]`):
cooldown check, `attacker.lastAttackAt = now`, then the `forEach` over
`Object.keys(players)` skipping the attacker itself.  `rnd` supplies the
respawn `Math.random()` draws in order. -/
def attackResolve (playerId : String) (store : Store) (now : ℤ) (rnd : ℕ → ℚ) :
    Store × List Event :=
  match alookup store playerId with
  | none => (store, [])
  | some attacker =>
    if now - attacker.lastAttackAt < ATTACK_COOLDOWN_MS then (store, [])
    else
      let store1 := aset store playerId { attacker with lastAttackAt := now }
      let acc :=
        (akeys store1).foldl (attackForEachBody playerId attacker.x attacker.y rnd)
          { store := store1, events := [], rIdx := 0 }
      (acc.store, acc.events)

/-- The message-handler body after `JSON.parse` succeeded (lines 155–234 of
`server.js`).  The select branch writes `players[playerId].character` without
checking that the entry exists, so when the player has been removed the
property write on `undefined` throws (`Outcome.thrown`).  The move and attack
branches guard on `players[playerId]` and fall through silently. -/
def handleMessage (playerId : String) (store : Store) (now : ℤ) (rnd : ℕ → ℚ)
    (msg : Msg) : Outcome :=
  match msg with
  | .select ch =>
    match alookup store playerId with
    | none => Outcome.thrown
    | some p =>
      let c := if ch = "" then "knight" else ch
      let p1 : Player := { p with character := some c }
      Outcome.ok (aset store playerId p1) [Event.spawn playerId p1]
  | .move position =>
    match position, alookup store playerId with
    | some (px, py), some p =>
      match px, py with
      | .finite rx, .finite ry =>
        let nx := MOVE_CLAMP rx ARENA.padding (ARENA.width - ARENA.padding)
        let ny := MOVE_CLAMP ry ARENA.padding (ARENA.height - ARENA.padding)
        Outcome.ok (aset store playerId { p with x := nx, y := ny })
          [Event.update playerId nx ny]
      | _, _ => Outcome.ok store []
    | _, _ => Outcome.ok store []
  | .attack =>
    let r := attackResolve playerId store now rnd
    Outcome.ok r.1 r.2
  | .unknown => Outcome.ok store []

/-- Modelled from the spec: the heal action handler.  The heal branch belongs
to the canonical variant of the server described by the spec but is absent
from the variant under `src/`; per the spec it is "only effective when the
player has exactly 1 life remaining and hp < 100 (last-stand mechanic); sets
hp to 100 and broadcasts a healed event.  Any other life/hp combination is a
silent no-op." -/
def healResolve (playerId : String) (store : Store) : Store × List Event :=
  match alookup store playerId with
  | none => (store, [])
  | some p =>
    if p.lives = 1 ∧ p.hp < 100 then
      (aset store playerId { p with hp := 100 }, [Event.healed playerId 100])
    else (store, [])

/-- Per-connection rate limiter fields (`socket._msgCount`, `socket._lastTick`). -/
structure RateState where
  msgCount : ℕ
  lastTick : ℤ
deriving DecidableEq

/-- Per-connection state: rate limiter fields plus the close code once the
server has closed the socket (`denyAndClose`). -/
structure ConnState where
  rate : RateState
  closedWith : Option ℕ
deriving DecidableEq

/-- The full `socket.on("message")` listener for one inbound frame at time
`now`: rate limiting (fixed window, reset when ≥1000 ms elapsed since the
window start; over-limit closes with 4003 before any parsing or dispatch),
then `JSON.parse` (`raw = none` models a parse failure, silently dropped),
then the branch dispatch.  A socket already closed by the server receives no
further frames, so messages after a close are no-ops. -/
def onMessage (playerId : String) (conn : ConnState) (store : Store) (now : ℤ)
    (rnd : ℕ → ℚ) (raw : Option Msg) : ConnState × Outcome :=
  match conn.closedWith with
  | some _ => (conn, Outcome.ok store [])
  | none =>
    let r1 : RateState :=
      if now - conn.rate.lastTick ≥ 1000 then { msgCount := 0, lastTick := now }
      else conn.rate
    let r2 : RateState := { r1 with msgCount := r1.msgCount + 1 }
    if r2.msgCount > MAX_MSGS_PER_SEC then
      ({ rate := r2, closedWith := some 4003 }, Outcome.ok store [])
    else
      match raw with
      | none => ({ rate := r2, closedWith := none }, Outcome.ok store [])
      | some m => ({ rate := r2, closedWith := none }, handleMessage playerId store now rnd m)

/-- Runs a list of timestamped inbound frames through `onMessage`, threading
the connection state and the store and concatenating the broadcast events.
An uncaught exception stops the run (the process crashes). -/
def runConn (playerId : String) (conn : ConnState) (store : Store) (rnd : ℕ → ℚ) :
    List (ℤ × Option Msg) → ConnState × Store × List Event
  | [] => (conn, store, [])
  | (t, m) :: rest =>
    match onMessage playerId conn store t rnd m with
    | (conn', Outcome.ok s' es) =>
      let r := runConn playerId conn' s' rnd rest
      (r.1, r.2.1, es ++ r.2.2)
    | (conn', Outcome.thrown) => (conn', store, [])

/-- Admission-control state in single-active-session mode
(`PERMANENT_BLOCK_PER_IP = false`): `activeIPMap` is the `Map` from IP to the
socket occupying that slot (sockets are identified by a numeric id), and
`live` records the admitted sockets that have not yet closed, each with the
IP recorded on it (`socket.playerIP`). -/
structure AdmState where
  activeIPMap : List (String × ℕ)
  live : List (ℕ × String)
deriving DecidableEq

/-- `Map.get` on `activeIPMap`. -/
def lookupIP (m : List (String × ℕ)) (ip : String) : Option ℕ :=
  (m.find? (fun e => e.1 == ip)).map (fun e => e.2)

/-- `Map.delete` on `activeIPMap`. -/
def removeIP (m : List (String × ℕ)) (ip : String) : List (String × ℕ) :=
  m.filter (fun e => !(e.1 == ip))

/-- A connection-lifecycle event: a new connection from `ip` identified by
the fresh socket id `sid`, or the close of socket `sid`. -/
inductive AdmEvent where
  | connect (ip : String) (sid : ℕ)
  | close (sid : ℕ)
deriving DecidableEq

/-- One admission-relevant transition of the server in single-session mode.
`connect`: if `activeIPMap.has(ip)` the socket is denied with close code 4002
and no handler is ever registered for it; otherwise `activeIPMap.set(ip,
socket)` and the socket becomes a live session.  `close` (only admitted
sockets have a close handler): the session ends, and the `activeIPMap` entry
for its IP is deleted only if it still points to this very socket
(`cur === socket`).  Returns the new state and the deny code, if any. -/
def admStep (s : AdmState) : AdmEvent → AdmState × Option ℕ
  | .connect ip sid =>
    match lookupIP s.activeIPMap ip with
    | some _ => (s, some 4002)
    | none =>
      ({ activeIPMap := (ip, sid) :: s.activeIPMap, live := (sid, ip) :: s.live }, none)
  | .close sid =>
    match s.live.find? (fun e => e.1 == sid) with
    | none => (s, none)
    | some q =>
      let live' := s.live.filter (fun e => !(e.1 == sid))
      let map' :=
        if lookupIP s.activeIPMap q.2 = some sid then removeIP s.activeIPMap q.2
        else s.activeIPMap
      ({ activeIPMap := map', live := live' }, none)

/-- Consistency of the admission state, established at startup (both tables
empty) and preserved by `admStep`: every live session's IP slot points back
to it, live socket ids are distinct, every `activeIPMap` entry belongs to a
live session, and `activeIPMap` has no duplicate IPs. -/
def AdmInv (s : AdmState) : Prop :=
  (∀ q ∈ s.live, lookupIP s.activeIPMap q.2 = some q.1) ∧
  (s.live.map (fun q => q.1)).Nodup ∧
  (∀ e ∈ s.activeIPMap, (e.2, e.1) ∈ s.live) ∧
  (s.activeIPMap.map (fun e => e.1)).Nodup

/-! ## Generic facts about the operations -/

theorem MOVE_CLAMP_mem {mn mx : ℚ} (v : ℚ) (hmn : mn ≤ mx) :
    mn ≤ MOVE_CLAMP v mn mx ∧ MOVE_CLAMP v mn mx ≤ mx := by
  unfold MOVE_CLAMP
  exact ⟨le_max_left _ _, max_le hmn (min_le_left _ _)⟩

/-! ## Concrete states used to instantiate the theorems -/

def pLastStand : Player :=
  { x := 500, y := 500, character := some "knight", hp := 40, lives := 1, lastAttackAt := 0 }

def pHealthy : Player :=
  { x := 520, y := 500, character := some "mage", hp := 100, lives := 2, lastAttackAt := 0 }

def storeTwo : Store := [("1", pLastStand), ("2", pHealthy)]

def rndHalf : ℕ → ℚ := fun _ => 1 / 2

/-! ## Claims -/

/-- C1: for every connected player, an inbound heal action sets hp to 100 and
broadcasts a healed event if and only if the player has `lives = 1` and
`hp < 100`; for every other lives/hp combination the heal action leaves the
store unchanged (in particular hp and lives) and emits no event.  (Heal is
modelled from the spec: the canonical variant's heal branch is absent from
the variant under `src/`.) -/
theorem heal_iff_last_stand (playerId : String) (store : Store) (p : Player)
    (h : alookup store playerId = some p) :
    (p.lives = 1 ∧ p.hp < 100 →
      healResolve playerId store =
        (aset store playerId { p with hp := 100 }, [Event.healed playerId 100])) ∧
    (¬(p.lives = 1 ∧ p.hp < 100) →
      healResolve playerId store = (store, [])) := by
  constructor <;> intro hc <;> simp [healResolve, h, hc]

theorem heal_iff_last_stand_witness :
    (pLastStand.lives = 1 ∧ pLastStand.hp < 100) ∧
    healResolve "1" storeTwo =
      (aset storeTwo "1" { pLastStand with hp := 100 }, [Event.healed "1" 100]) :=
  ⟨by decide,
    (heal_iff_last_stand "1" storeTwo pLastStand (by decide)).1 (by decide)⟩

/-- C2: the select branch writes `players[playerId].character` without a
guard, so on a connection whose player entry has been removed (an eliminated
spectator) an inbound select message throws a `TypeError` out of the message
handler — the handler does crash, contradicting the claim. -/
theorem select_after_elimination_throws :
    handleMessage "1" [("2", pHealthy)] 0 rndHalf (Msg.select "knight") =
      Outcome.thrown := by
  decide

/-- C4: for every move action from a connected player: if either coordinate
is non-finite the action is silently ignored (store unchanged, no event);
otherwise the position is set to the requested coordinates clamped
independently per axis to `[padding, dimension - padding]`, the result lies
in that rectangle on both axes, and an update event carrying the clamped
position is broadcast. -/
theorem move_clamps_or_ignores (playerId : String) (store : Store) (now : ℤ)
    (rnd : ℕ → ℚ) (p : Player) (h : alookup store playerId = some p) :
    (∀ px py : JsNum, px = JsNum.nonfinite ∨ py = JsNum.nonfinite →
      handleMessage playerId store now rnd (Msg.move (some (px, py))) =
        Outcome.ok store []) ∧
    (∀ rx ry : ℚ,
      handleMessage playerId store now rnd
          (Msg.move (some (JsNum.finite rx, JsNum.finite ry))) =
        Outcome.ok
          (aset store playerId
            { p with x := MOVE_CLAMP rx ARENA.padding (ARENA.width - ARENA.padding),
                     y := MOVE_CLAMP ry ARENA.padding (ARENA.height - ARENA.padding) })
          [Event.update playerId
            (MOVE_CLAMP rx ARENA.padding (ARENA.width - ARENA.padding))
            (MOVE_CLAMP ry ARENA.padding (ARENA.height - ARENA.padding))] ∧
      ARENA.padding ≤ MOVE_CLAMP rx ARENA.padding (ARENA.width - ARENA.padding) ∧
      MOVE_CLAMP rx ARENA.padding (ARENA.width - ARENA.padding) ≤ ARENA.width - ARENA.padding ∧
      ARENA.padding ≤ MOVE_CLAMP ry ARENA.padding (ARENA.height - ARENA.padding) ∧
      MOVE_CLAMP ry ARENA.padding (ARENA.height - ARENA.padding) ≤ ARENA.height - ARENA.padding) := by
  constructor
  · intro px py hnf
    rcases hnf with hx | hy
    · subst hx; cases py <;> simp [handleMessage, h]
    · subst hy; cases px <;> simp [handleMessage, h]
  · intro rx ry
    have hx := @MOVE_CLAMP_mem ARENA.padding (ARENA.width - ARENA.padding) rx
      (by norm_num [ARENA])
    have hy := @MOVE_CLAMP_mem ARENA.padding (ARENA.height - ARENA.padding) ry
      (by norm_num [ARENA])
    exact ⟨by simp [handleMessage, h], hx.1, hx.2, hy.1, hy.2⟩

theorem move_clamps_or_ignores_witness :
    alookup storeTwo "1" = some pLastStand ∧
    handleMessage "1" storeTwo 0 rndHalf
        (Msg.move (some (JsNum.finite 5000, JsNum.finite (-3)))) =
      Outcome.ok
        (aset storeTwo "1"
          { pLastStand with x := MOVE_CLAMP 5000 ARENA.padding (ARENA.width - ARENA.padding),
                            y := MOVE_CLAMP (-3) ARENA.padding (ARENA.height - ARENA.padding) })
        [Event.update "1"
          (MOVE_CLAMP 5000 ARENA.padding (ARENA.width - ARENA.padding))
          (MOVE_CLAMP (-3) ARENA.padding (ARENA.height - ARENA.padding))] :=
  ⟨by decide,
    ((move_clamps_or_ignores "1" storeTwo 0 rndHalf pLastStand (by decide)).2 5000 (-3)).1⟩

/-- C6: an attack issued less than `ATTACK_COOLDOWN_MS` after the attacker's
last successful attack is a complete no-op: the store is returned unchanged
(no player's state changes, including the attacker's `lastAttackAt`) and no
event is broadcast. -/
theorem attack_in_cooldown_noop (playerId : String) (store : Store) (now : ℤ)
    (rnd : ℕ → ℚ) (a : Player) (h : alookup store playerId = some a)
    (hcd : now - a.lastAttackAt < ATTACK_COOLDOWN_MS) :
    handleMessage playerId store now rnd Msg.attack = Outcome.ok store [] := by
  simp [handleMessage, attackResolve, h, hcd]

theorem attack_in_cooldown_noop_witness :
    (300 : ℤ) - ({ pLastStand with lastAttackAt := 100 } : Player).lastAttackAt <
      ATTACK_COOLDOWN_MS ∧
    handleMessage "1" [("1", { pLastStand with lastAttackAt := 100 })] 300 rndHalf
        Msg.attack =
      Outcome.ok [("1", { pLastStand with lastAttackAt := 100 })] [] :=
  ⟨by decide,
    attack_in_cooldown_noop "1" [("1", { pLastStand with lastAttackAt := 100 })] 300
      rndHalf { pLastStand with lastAttackAt := 100 } (by decide) (by decide)⟩

/-- C10: on a connection whose player entry has been removed from the store,
inbound move and attack actions are silent no-ops — both branches guard on
`players[playerId]` — so the store is unchanged and no event is broadcast. -/
theorem removed_player_move_attack_noop (playerId : String) (store : Store)
    (now : ℤ) (rnd : ℕ → ℚ) (h : alookup store playerId = none) :
    (∀ position, handleMessage playerId store now rnd (Msg.move position) =
      Outcome.ok store []) ∧
    handleMessage playerId store now rnd Msg.attack = Outcome.ok store [] := by
  constructor
  · intro position
    cases position with
    | none => simp [handleMessage]
    | some pr => simp [handleMessage, h]
  · simp [handleMessage, attackResolve, h]

theorem removed_player_move_attack_noop_witness :
    alookup [(("2" : String), pHealthy)] "1" = none ∧
    handleMessage "1" [("2", pHealthy)] 0 rndHalf
        (Msg.move (some (JsNum.finite 10, JsNum.finite 10))) =
      Outcome.ok [("2", pHealthy)] [] ∧
    handleMessage "1" [("2", pHealthy)] 0 rndHalf Msg.attack =
      Outcome.ok [("2", pHealthy)] [] :=
  ⟨by decide,
    (removed_player_move_attack_noop "1" [("2", pHealthy)] 0 rndHalf (by decide)).1
      (some (JsNum.finite 10, JsNum.finite 10)),
    (removed_player_move_attack_noop "1" [("2", pHealthy)] 0 rndHalf (by decide)).2⟩

/-! ## Rate limiting -/

theorem runConn_closed (playerId : String) (rnd : ℕ → ℚ) (c : ℕ)
    (msgs : List (ℤ × Option Msg)) :
    ∀ (conn : ConnState) (store : Store), conn.closedWith = some c →
    runConn playerId conn store rnd msgs = (conn, store, []) := by
  induction msgs with
  | nil => intro conn store _; rfl
  | cons p rest ih =>
    intro conn store h
    obtain ⟨t, m⟩ := p
    have hon : onMessage playerId conn store t rnd m = (conn, Outcome.ok store []) := by
      simp [onMessage, h]
    simp [runConn, hon, ih conn store h]

/-- C3 (counterexample): 40 frames at t = 999 followed by 40 frames at
t = 1001 all fall inside one rolling 1-second window (all timestamps lie in
`[999, 1999)`), yet the fixed-window counter resets in between: the
connection is never closed with 4003 and all 80 messages are applied to the
store (80 spawn broadcasts; the 41st and later messages still take effect —
the final store holds the character set by the 80th message). -/
def spamStraddle : List (ℤ × Option Msg) :=
  List.replicate 40 ((999 : ℤ), some (Msg.select "early")) ++
  List.replicate 40 ((1001 : ℤ), some (Msg.select "late"))

theorem rate_limit_not_rolling_counterexample :
    (40 < spamStraddle.length ∧ ∀ p ∈ spamStraddle, 999 ≤ p.1 ∧ p.1 < 999 + 1000) ∧
    (runConn "1" ⟨⟨0, 0⟩, none⟩ [("1", pLastStand)] rndHalf spamStraddle).1.closedWith = none ∧
    (runConn "1" ⟨⟨0, 0⟩, none⟩ [("1", pLastStand)] rndHalf spamStraddle).2.2.length = 80 ∧
    alookup (runConn "1" ⟨⟨0, 0⟩, none⟩ [("1", pLastStand)] rndHalf spamStraddle).2.1 "1" =
      some { pLastStand with character := some "late" } := by
  refine ⟨⟨by decide, by decide⟩, by decide, by decide, by decide⟩

/-! ## Per-target characterization of the attack loop -/

/-- Abstract outcome of one damage application to a target `t` by an attacker
at `(ax, ay)`, with `nx, ny` the respawn coordinates drawn when needed:
`none` means the target is eliminated (deleted from the store). -/
def damageResult (ax ay : ℚ) (t : Player) (nx ny : ℚ) : Option Player :=
  if (ax - t.x) ^ 2 + (ay - t.y) ^ 2 ≤ ATTACK_RANGE ^ 2 then
    let newHp := max 0 ((if t.hp = 0 then 100 else t.hp) - DMG)
    if newHp ≤ 0 then
      let newLives := max 0 (t.lives - 1)
      if newLives > 0 then
        some { t with x := nx, y := ny, hp := 100, lives := newLives }
      else none
    else some { t with hp := newHp }
  else some t

theorem attackStep_store_other {k id : String} (hne : k ≠ id) (ax ay : ℚ)
    (rnd : ℕ → ℚ) (acc : AtkAcc) :
    alookup (attackStep ax ay rnd acc k).store id = alookup acc.store id := by
  unfold attackStep
  cases h : alookup acc.store k with
  | none => rfl
  | some t =>
    simp only []
    split_ifs <;>
      first
        | rfl
        | exact alookup_aset_ne (fun hh => hne hh.symm) _ _
        | exact alookup_adel_ne (fun hh => hne hh.symm) _

theorem attackStep_absent {k : String} {ax ay : ℚ} {rnd : ℕ → ℚ} {acc : AtkAcc}
    (h : alookup acc.store k = none) : attackStep ax ay rnd acc k = acc := by
  unfold attackStep
  rw [h]

theorem attackStep_store_self {id : String} {acc : AtkAcc} {t : Player}
    (ax ay : ℚ) (rnd : ℕ → ℚ) (ht : alookup acc.store id = some t) :
    alookup (attackStep ax ay rnd acc id).store id =
      damageResult ax ay t (spawnX (rnd acc.rIdx)) (spawnY (rnd (acc.rIdx + 1))) := by
  unfold attackStep damageResult
  rw [ht]
  simp only []
  split_ifs <;>
    first
      | exact alookup_aset_self _ ht
      | exact alookup_adel_self _ _
      | exact ht

theorem attackStep_events_mono (ax ay : ℚ) (rnd : ℕ → ℚ) (acc : AtkAcc) (k : String) :
    ∃ l, (attackStep ax ay rnd acc k).events = acc.events ++ l := by
  unfold attackStep
  cases h : alookup acc.store k with
  | none => exact ⟨[], by simp⟩
  | some t =>
    simp only []
    split_ifs <;> first | exact ⟨_, rfl⟩ | exact ⟨[], by simp⟩

theorem attackStep_self_event {id : String} {acc : AtkAcc} {t : Player}
    {ax ay : ℚ} (rnd : ℕ → ℚ) (ht : alookup acc.store id = some t)
    (hin : (ax - t.x) ^ 2 + (ay - t.y) ^ 2 ≤ ATTACK_RANGE ^ 2) :
    Event.damage id (max 0 ((if t.hp = 0 then 100 else t.hp) - DMG)) ∈
      (attackStep ax ay rnd acc id).events := by
  unfold attackStep
  rw [ht]
  simp only []
  split_ifs <;> simp_all

theorem foldBody_store_pid (playerId : String) (ax ay : ℚ) (rnd : ℕ → ℚ)
    (ks : List String) :
    ∀ acc : AtkAcc,
    alookup (ks.foldl (attackForEachBody playerId ax ay rnd) acc).store playerId =
      alookup acc.store playerId := by
  induction ks with
  | nil => intro acc; rfl
  | cons k ks ih =>
    intro acc
    rw [List.foldl_cons, ih]
    unfold attackForEachBody
    by_cases hk : k = playerId
    · simp [hk]
    · rw [if_neg (by simpa using hk)]
      exact attackStep_store_other hk ax ay rnd acc

theorem foldBody_store_notmem (playerId : String) (ax ay : ℚ) (rnd : ℕ → ℚ)
    {id : String} (ks : List String) (hid : id ∉ ks) :
    ∀ acc : AtkAcc,
    alookup (ks.foldl (attackForEachBody playerId ax ay rnd) acc).store id =
      alookup acc.store id := by
  induction ks with
  | nil => intro acc; rfl
  | cons k ks ih =>
    intro acc
    have hk : k ≠ id := fun h => hid (h ▸ List.mem_cons_self _ _)
    have hid' : id ∉ ks := fun h => hid (List.mem_cons_of_mem _ h)
    rw [List.foldl_cons, ih hid']
    unfold attackForEachBody
    split
    · rfl
    · exact attackStep_store_other hk ax ay rnd acc

theorem foldBody_store_none (playerId : String) (ax ay : ℚ) (rnd : ℕ → ℚ)
    {id : String} (ks : List String) :
    ∀ acc : AtkAcc, alookup acc.store id = none →
    alookup (ks.foldl (attackForEachBody playerId ax ay rnd) acc).store id = none := by
  induction ks with
  | nil => intro acc h; exact h
  | cons k ks ih =>
    intro acc h
    rw [List.foldl_cons]
    refine ih _ ?_
    unfold attackForEachBody
    split
    · exact h
    · by_cases hk : k = id
      · subst hk
        rw [attackStep_absent h]
        exact h
      · rw [attackStep_store_other hk ax ay rnd acc]
        exact h

theorem foldBody_events_mono (playerId : String) (ax ay : ℚ) (rnd : ℕ → ℚ)
    (ks : List String) :
    ∀ acc : AtkAcc,
    ∃ l, (ks.foldl (attackForEachBody playerId ax ay rnd) acc).events =
      acc.events ++ l := by
  induction ks with
  | nil => intro acc; exact ⟨[], by simp⟩
  | cons k ks ih =>
    intro acc
    rw [List.foldl_cons]
    by_cases hk : (k == playerId) = true
    · have hb : attackForEachBody playerId ax ay rnd acc k = acc := by
        unfold attackForEachBody
        rw [if_pos hk]
      rw [hb]
      exact ih acc
    · have hb : attackForEachBody playerId ax ay rnd acc k =
          attackStep ax ay rnd acc k := by
        unfold attackForEachBody
        rw [if_neg hk]
      rw [hb]
      obtain ⟨l₂, hl₂⟩ := ih (attackStep ax ay rnd acc k)
      obtain ⟨l₁, hl₁⟩ := attackStep_events_mono ax ay rnd acc k
      exact ⟨l₁ ++ l₂, by rw [hl₂, hl₁, List.append_assoc]⟩

theorem foldBody_target (playerId : String) (ax ay : ℚ) (rnd : ℕ → ℚ)
    {id : String} (hne : id ≠ playerId) (ks : List String) (hnod : ks.Nodup)
    (hmem : id ∈ ks) (acc : AtkAcc) (t : Player)
    (ht : alookup acc.store id = some t) :
    ∃ j, alookup (ks.foldl (attackForEachBody playerId ax ay rnd) acc).store id =
        damageResult ax ay t (spawnX (rnd j)) (spawnY (rnd (j + 1))) ∧
      ((ax - t.x) ^ 2 + (ay - t.y) ^ 2 ≤ ATTACK_RANGE ^ 2 →
        Event.damage id (max 0 ((if t.hp = 0 then 100 else t.hp) - DMG)) ∈
          (ks.foldl (attackForEachBody playerId ax ay rnd) acc).events) := by
  obtain ⟨l₁, l₂, rfl⟩ := List.append_of_mem hmem
  rw [List.nodup_append] at hnod
  have hid1 : id ∉ l₁ := fun h => hnod.2.2 h (List.mem_cons_self _ _)
  have hid2 : id ∉ l₂ := by
    have := hnod.2.1
    rw [List.nodup_cons] at this
    exact this.1
  rw [List.foldl_append, List.foldl_cons]
  set acc1 := l₁.foldl (attackForEachBody playerId ax ay rnd) acc with hacc1
  have ht1 : alookup acc1.store id = some t := by
    rw [hacc1, foldBody_store_notmem playerId ax ay rnd l₁ hid1 acc]
    exact ht
  have hbody : attackForEachBody playerId ax ay rnd acc1 id =
      attackStep ax ay rnd acc1 id := by
    unfold attackForEachBody
    rw [if_neg (by simpa using hne)]
  refine ⟨acc1.rIdx, ?_, ?_⟩
  · rw [hbody, foldBody_store_notmem playerId ax ay rnd l₂ hid2 _]
    exact attackStep_store_self ax ay rnd ht1
  · intro hin
    obtain ⟨l, hl⟩ := foldBody_events_mono playerId ax ay rnd l₂
      (attackForEachBody playerId ax ay rnd acc1 id)
    rw [hl, hbody]
    exact List.mem_append_left _ (attackStep_self_event rnd ht1 hin)

/-- Master characterization of `attackResolve` outside the cooldown window:
the attacker's entry only gets its `lastAttackAt` stamped; absent entries
stay absent; and every other present entry is transformed exactly by
`damageResult` (with respawn coordinates drawn from `rnd`), with a damage
event broadcast whenever the target is in range. -/
theorem attackResolve_spec (playerId : String) (store : Store) (now : ℤ)
    (rnd : ℕ → ℚ) (a : Player) (hnod : (akeys store).Nodup)
    (ha : alookup store playerId = some a)
    (hcd : ¬ (now - a.lastAttackAt < ATTACK_COOLDOWN_MS)) :
    alookup (attackResolve playerId store now rnd).1 playerId =
      some { a with lastAttackAt := now } ∧
    (∀ id, alookup store id = none →
      alookup (attackResolve playerId store now rnd).1 id = none) ∧
    (∀ id t, id ≠ playerId → alookup store id = some t →
      ∃ j, alookup (attackResolve playerId store now rnd).1 id =
          damageResult a.x a.y t (spawnX (rnd j)) (spawnY (rnd (j + 1))) ∧
        ((a.x - t.x) ^ 2 + (a.y - t.y) ^ 2 ≤ ATTACK_RANGE ^ 2 →
          Event.damage id (max 0 ((if t.hp = 0 then 100 else t.hp) - DMG)) ∈
            (attackResolve playerId store now rnd).2)) := by
  have hres : attackResolve playerId store now rnd =
      (((akeys (aset store playerId { a with lastAttackAt := now })).foldl
          (attackForEachBody playerId a.x a.y rnd)
          { store := aset store playerId { a with lastAttackAt := now },
            events := [], rIdx := 0 }).store,
       ((akeys (aset store playerId { a with lastAttackAt := now })).foldl
          (attackForEachBody playerId a.x a.y rnd)
          { store := aset store playerId { a with lastAttackAt := now },
            events := [], rIdx := 0 }).events) := by
    simp [attackResolve, ha, hcd]
  rw [hres]
  simp only []
  set store1 := aset store playerId { a with lastAttackAt := now } with hstore1
  have hkeys : akeys store1 = akeys store := akeys_aset store playerId _
  have hnod1 : (akeys store1).Nodup := hkeys ▸ hnod
  refine ⟨?_, ?_, ?_⟩
  · rw [foldBody_store_pid]
    exact alookup_aset_self _ ha
  · intro id hid
    refine foldBody_store_none playerId a.x a.y rnd _ _ ?_
    by_cases hne : id = playerId
    · subst hne
      rw [hid] at ha
      exact absurd ha (by simp)
    · rw [hstore1, alookup_aset_ne hne store _]
      exact hid
  · intro id t hne ht
    have ht1 : alookup store1 id = some t := by
      rw [hstore1, alookup_aset_ne hne store _]
      exact ht
    have hmem : id ∈ akeys store1 :=
      mem_of_alookup_ne_none (by rw [ht1]; simp)
    exact foldBody_target playerId a.x a.y rnd hne (akeys store1) hnod1 hmem _ t ht1

theorem alookup_aset_cases {α : Type} {l : List (String × α)} {k id : String}
    {v v' : α} (h : alookup (aset l k v) id = some v') :
    (id = k ∧ v' = v) ∨ (id ≠ k ∧ alookup l id = some v') := by
  by_cases hk : id = k
  · subst hk
    cases hl : alookup l id with
    | none =>
      rw [aset_absent hl] at h
      rw [h] at hl
      exact absurd hl (by simp)
    | some w =>
      rw [alookup_aset_self v hl] at h
      exact Or.inl ⟨rfl, (Option.some.inj h).symm⟩
  · refine Or.inr ⟨hk, ?_⟩
    rw [← alookup_aset_ne hk l v]
    exact h

theorem alookup_aset_none {α : Type} {l : List (String × α)} {k id : String}
    {v : α} (h : alookup (aset l k v) id = none) : alookup l id = none := by
  by_cases hk : id = k
  · subst hk
    cases hl : alookup l id with
    | none => rfl
    | some w =>
      rw [alookup_aset_self v hl] at h
      exact absurd h (by simp)
  · rw [← alookup_aset_ne hk l v]
    exact h

theorem damageResult_lives_le {ax ay nx ny : ℚ} {t u : Player} (h0 : 0 ≤ t.lives)
    (h : damageResult ax ay t nx ny = some u) : u.lives ≤ t.lives := by
  simp only [damageResult] at h
  by_cases h1 : (ax - t.x) ^ 2 + (ay - t.y) ^ 2 ≤ ATTACK_RANGE ^ 2
  · rw [if_pos h1] at h
    by_cases h2 : max 0 ((if t.hp = 0 then 100 else t.hp) - DMG) ≤ 0
    · rw [if_pos h2] at h
      by_cases h3 : max 0 (t.lives - 1) > 0
      · rw [if_pos h3] at h
        obtain rfl := Option.some.inj h
        exact max_le h0 (by omega)
      · rw [if_neg h3] at h
        cases h
    · rw [if_neg h2] at h
      obtain rfl := Option.some.inj h
      exact le_refl _
  · rw [if_neg h1] at h
    obtain rfl := Option.some.inj h
    exact le_refl _

theorem damageResult_none_cond {ax ay nx ny : ℚ} {t : Player}
    (h : damageResult ax ay t nx ny = none) :
    (if t.hp = 0 then 100 else t.hp) ≤ DMG ∧ t.lives ≤ 1 ∧
      (ax - t.x) ^ 2 + (ay - t.y) ^ 2 ≤ ATTACK_RANGE ^ 2 := by
  simp only [damageResult] at h
  by_cases h1 : (ax - t.x) ^ 2 + (ay - t.y) ^ 2 ≤ ATTACK_RANGE ^ 2
  · rw [if_pos h1] at h
    by_cases h2 : max 0 ((if t.hp = 0 then 100 else t.hp) - DMG) ≤ 0
    · rw [if_pos h2] at h
      by_cases h3 : max 0 (t.lives - 1) > 0
      · rw [if_pos h3] at h
        cases h
      · have hl : t.lives - 1 ≤ 0 := by
          by_contra hc
          exact h3 (lt_of_lt_of_le (by omega) (le_max_right 0 (t.lives - 1)))
        exact ⟨by linarith [(max_le_iff.mp h2).2], by omega, h1⟩
    · rw [if_neg h2] at h
      cases h
  · rw [if_neg h1] at h
    cases h

theorem damageResult_respawn {ax ay nx ny : ℚ} {t : Player}
    (hin : (ax - t.x) ^ 2 + (ay - t.y) ^ 2 ≤ ATTACK_RANGE ^ 2)
    (hhp : (if t.hp = 0 then 100 else t.hp) ≤ DMG) (hlv : 1 < t.lives) :
    damageResult ax ay t nx ny =
      some { t with x := nx, y := ny, hp := 100, lives := t.lives - 1 } := by
  simp only [damageResult]
  rw [if_pos hin, if_pos (max_le (le_refl 0) (by linarith)),
    if_pos (lt_of_lt_of_le (by omega : (0:ℤ) < t.lives - 1) (le_max_right 0 (t.lives - 1)))]
  rw [max_eq_right (by omega : (0:ℤ) ≤ t.lives - 1)]

theorem damageResult_eliminated {ax ay nx ny : ℚ} {t : Player}
    (hin : (ax - t.x) ^ 2 + (ay - t.y) ^ 2 ≤ ATTACK_RANGE ^ 2)
    (hhp : (if t.hp = 0 then 100 else t.hp) ≤ DMG) (hlv : t.lives ≤ 1) :
    damageResult ax ay t nx ny = none := by
  simp only [damageResult]
  rw [if_pos hin, if_pos (max_le (le_refl 0) (by linarith)),
    if_neg (by rw [max_eq_left (by omega : t.lives - 1 ≤ 0)]; omega)]

theorem damageResult_hit_survive {ax ay nx ny : ℚ} {t : Player}
    (hin : (ax - t.x) ^ 2 + (ay - t.y) ^ 2 ≤ ATTACK_RANGE ^ 2)
    (hhp : t.hp ≠ 0) (hgt : 0 < t.hp - DMG) :
    damageResult ax ay t nx ny = some { t with hp := t.hp - DMG } := by
  simp only [damageResult, if_neg hhp]
  rw [if_pos hin, max_eq_right (le_of_lt hgt), if_neg (by omega)]

theorem damageResult_coords {ax ay nx ny : ℚ} {t u : Player}
    (h : damageResult ax ay t nx ny = some u) :
    (u.x = t.x ∧ u.y = t.y) ∨ (u.x = nx ∧ u.y = ny) := by
  simp only [damageResult] at h
  by_cases h1 : (ax - t.x) ^ 2 + (ay - t.y) ^ 2 ≤ ATTACK_RANGE ^ 2
  · rw [if_pos h1] at h
    by_cases h2 : max 0 ((if t.hp = 0 then 100 else t.hp) - DMG) ≤ 0
    · rw [if_pos h2] at h
      by_cases h3 : max 0 (t.lives - 1) > 0
      · rw [if_pos h3] at h
        obtain rfl := Option.some.inj h
        exact Or.inr ⟨rfl, rfl⟩
      · rw [if_neg h3] at h
        cases h
    · rw [if_neg h2] at h
      obtain rfl := Option.some.inj h
      exact Or.inl ⟨rfl, rfl⟩
  · rw [if_neg h1] at h
    obtain rfl := Option.some.inj h
    exact Or.inl ⟨rfl, rfl⟩

/-- The legal play area: `[padding, width-padding] × [padding, height-padding]`. -/
def inArena (p : Player) : Prop :=
  ARENA.padding ≤ p.x ∧ p.x ≤ ARENA.width - ARENA.padding ∧
  ARENA.padding ≤ p.y ∧ p.y ≤ ARENA.height - ARENA.padding

theorem spawnX_mem {r : ℚ} (h0 : 0 ≤ r) (h1 : r < 1) :
    ARENA.padding ≤ spawnX r ∧ spawnX r ≤ ARENA.width - ARENA.padding := by
  unfold spawnX
  have hc : (0:ℚ) < ARENA.width - ARENA.padding * 2 := by norm_num [ARENA]
  constructor
  · have hle : ((200 : ℤ) : ℚ) ≤ r * (ARENA.width - ARENA.padding * 2) + ARENA.padding := by
      have := mul_nonneg h0 (le_of_lt hc)
      push_cast
      norm_num [ARENA]
      linarith
    have := Int.le_floor.mpr hle
    have hq : ((200 : ℤ) : ℚ) ≤
        ((⌊r * (ARENA.width - ARENA.padding * 2) + ARENA.padding⌋ : ℤ) : ℚ) := by
      exact_mod_cast this
    calc ARENA.padding = ((200 : ℤ) : ℚ) := by norm_num [ARENA]
      _ ≤ _ := hq
  · have hlt : r * (ARENA.width - ARENA.padding * 2) + ARENA.padding <
        ARENA.width - ARENA.padding := by
      have := mul_lt_mul_of_pos_right h1 hc
      rw [one_mul] at this
      norm_num [ARENA] at this ⊢
      linarith
    have hfl := Int.floor_le (r * (ARENA.width - ARENA.padding * 2) + ARENA.padding)
    exact le_of_lt (lt_of_le_of_lt hfl hlt)

theorem spawnY_mem {r : ℚ} (h0 : 0 ≤ r) (h1 : r < 1) :
    ARENA.padding ≤ spawnY r ∧ spawnY r ≤ ARENA.height - ARENA.padding := by
  unfold spawnY
  have hc : (0:ℚ) < ARENA.height - ARENA.padding * 2 := by norm_num [ARENA]
  constructor
  · have hle : ((200 : ℤ) : ℚ) ≤ r * (ARENA.height - ARENA.padding * 2) + ARENA.padding := by
      have := mul_nonneg h0 (le_of_lt hc)
      push_cast
      norm_num [ARENA]
      linarith
    have := Int.le_floor.mpr hle
    have hq : ((200 : ℤ) : ℚ) ≤
        ((⌊r * (ARENA.height - ARENA.padding * 2) + ARENA.padding⌋ : ℤ) : ℚ) := by
      exact_mod_cast this
    calc ARENA.padding = ((200 : ℤ) : ℚ) := by norm_num [ARENA]
      _ ≤ _ := hq
  · have hlt : r * (ARENA.height - ARENA.padding * 2) + ARENA.padding <
        ARENA.height - ARENA.padding := by
      have := mul_lt_mul_of_pos_right h1 hc
      rw [one_mul] at this
      norm_num [ARENA] at this ⊢
      linarith
    have hfl := Int.floor_le (r * (ARENA.height - ARENA.padding * 2) + ARENA.padding)
    exact le_of_lt (lt_of_le_of_lt hfl hlt)

theorem attackResolve_noop_of_absent {playerId : String} {store : Store}
    {now : ℤ} {rnd : ℕ → ℚ} (ha : alookup store playerId = none) :
    attackResolve playerId store now rnd = (store, []) := by
  simp [attackResolve, ha]

theorem attackResolve_noop_of_cooldown {playerId : String} {store : Store}
    {now : ℤ} {rnd : ℕ → ℚ} {a : Player} (ha : alookup store playerId = some a)
    (hcd : now - a.lastAttackAt < ATTACK_COOLDOWN_MS) :
    attackResolve playerId store now rnd = (store, []) := by
  simp [attackResolve, ha, hcd]

/-- Every store a successful message-handler run can produce: unchanged, a
character overwrite, a per-axis-clamped position update, or an attack
resolution outside the cooldown. -/
theorem handleMessage_ok_cases {playerId : String} {store : Store} {now : ℤ}
    {rnd : ℕ → ℚ} {msg : Msg} {s' : Store} {es : List Event}
    (h : handleMessage playerId store now rnd msg = Outcome.ok s' es) :
    s' = store ∨
    (∃ p c, alookup store playerId = some p ∧
      s' = aset store playerId { p with character := some c }) ∨
    (∃ p nx ny, alookup store playerId = some p ∧
      s' = aset store playerId { p with x := nx, y := ny } ∧
      ARENA.padding ≤ nx ∧ nx ≤ ARENA.width - ARENA.padding ∧
      ARENA.padding ≤ ny ∧ ny ≤ ARENA.height - ARENA.padding) ∨
    (∃ a, alookup store playerId = some a ∧
      ¬ (now - a.lastAttackAt < ATTACK_COOLDOWN_MS) ∧
      s' = (attackResolve playerId store now rnd).1) := by
  cases msg with
  | select ch =>
    cases hpl : alookup store playerId with
    | none => simp [handleMessage, hpl] at h
    | some p =>
      simp only [handleMessage, hpl, Outcome.ok.injEq] at h
      exact Or.inr (Or.inl ⟨p, _, rfl, h.1.symm⟩)
  | move position =>
    cases position with
    | none =>
      simp only [handleMessage, Outcome.ok.injEq] at h
      exact Or.inl h.1.symm
    | some pr =>
      obtain ⟨px, py⟩ := pr
      cases hpl : alookup store playerId with
      | none =>
        simp only [handleMessage, hpl, Outcome.ok.injEq] at h
        exact Or.inl h.1.symm
      | some p =>
        cases px with
        | nonfinite =>
          simp only [handleMessage, hpl, Outcome.ok.injEq] at h
          exact Or.inl h.1.symm
        | finite rx =>
          cases py with
          | nonfinite =>
            simp only [handleMessage, hpl, Outcome.ok.injEq] at h
            exact Or.inl h.1.symm
          | finite ry =>
            simp only [handleMessage, hpl, Outcome.ok.injEq] at h
            have hx := @MOVE_CLAMP_mem ARENA.padding
              (ARENA.width - ARENA.padding) rx (by norm_num [ARENA])
            have hy := @MOVE_CLAMP_mem ARENA.padding
              (ARENA.height - ARENA.padding) ry (by norm_num [ARENA])
            exact Or.inr (Or.inr (Or.inl ⟨p, _, _, rfl, h.1.symm,
              hx.1, hx.2, hy.1, hy.2⟩))
  | attack =>
    simp only [handleMessage, Outcome.ok.injEq] at h
    cases hpl : alookup store playerId with
    | none =>
      rw [attackResolve_noop_of_absent hpl] at h
      exact Or.inl h.1.symm
    | some a =>
      by_cases hcd : now - a.lastAttackAt < ATTACK_COOLDOWN_MS
      · rw [attackResolve_noop_of_cooldown hpl hcd] at h
        exact Or.inl h.1.symm
      · exact Or.inr (Or.inr (Or.inr ⟨a, rfl, hcd, h.1.symm⟩))
  | unknown =>
    simp only [handleMessage, Outcome.ok.injEq] at h
    exact Or.inl h.1.symm

/-- A present sender never throws: the only throwing path is the select
branch's property write on a missing entry. -/
theorem handleMessage_not_thrown_of_present {playerId : String} {store : Store}
    {now : ℤ} {rnd : ℕ → ℚ} {m : Msg} {p : Player}
    (hp : alookup store playerId = some p) :
    handleMessage playerId store now rnd m ≠ Outcome.thrown := by
  cases m with
  | select ch => simp [handleMessage, hp]
  | move position =>
    cases position with
    | none => simp [handleMessage]
    | some pr =>
      obtain ⟨px, py⟩ := pr
      cases px <;> cases py <;> simp [handleMessage, hp]
  | attack => simp [handleMessage]
  | unknown => simp [handleMessage]

/-- The attack loop never deletes the attacker's own entry (the `forEach`
skips `otherId === playerId`), so the attacker stays in the store. -/
theorem attackResolve_preserves_self {playerId : String} {store : Store}
    {now : ℤ} {rnd : ℕ → ℚ} {a : Player}
    (ha : alookup store playerId = some a) :
    ∃ p', alookup (attackResolve playerId store now rnd).1 playerId = some p' := by
  by_cases hcd : now - a.lastAttackAt < ATTACK_COOLDOWN_MS
  · rw [attackResolve_noop_of_cooldown ha hcd]
    exact ⟨a, ha⟩
  · have hres : attackResolve playerId store now rnd =
        (((akeys (aset store playerId { a with lastAttackAt := now })).foldl
            (attackForEachBody playerId a.x a.y rnd)
            { store := aset store playerId { a with lastAttackAt := now },
              events := [], rIdx := 0 }).store,
         ((akeys (aset store playerId { a with lastAttackAt := now })).foldl
            (attackForEachBody playerId a.x a.y rnd)
            { store := aset store playerId { a with lastAttackAt := now },
              events := [], rIdx := 0 }).events) := by
      simp [attackResolve, ha, hcd]
    rw [hres]
    refine ⟨{ a with lastAttackAt := now }, ?_⟩
    rw [foldBody_store_pid]
    exact alookup_aset_self _ ha

/-- No message a player sends can remove that player's own entry. -/
theorem handleMessage_preserves_presence {playerId : String} {store : Store}
    {now : ℤ} {rnd : ℕ → ℚ} {m : Msg} {s' : Store} {es : List Event} {p : Player}
    (hp : alookup store playerId = some p)
    (h : handleMessage playerId store now rnd m = Outcome.ok s' es) :
    ∃ p', alookup s' playerId = some p' := by
  rcases handleMessage_ok_cases h with rfl | ⟨q, c, hq, rfl⟩ | ⟨q, nx, ny, hq, rfl, -⟩ |
    ⟨a, ha, hcd, rfl⟩
  · exact ⟨p, hp⟩
  · exact ⟨_, alookup_aset_self _ hq⟩
  · exact ⟨_, alookup_aset_self _ hq⟩
  · exact attackResolve_preserves_self ha

/-- C3 (amended): the limiter window is fixed, not rolling — per connection,
messages are counted in a window that resets once ≥1000 ms have elapsed since
the window's start; for a connection whose player entry is in the store, if
more than `MAX_MSGS_PER_SEC` messages arrive within one such fixed window the
connection is closed with code 4003 and no message beyond the threshold in
that window is applied to the store (the run's store and broadcast output
equal those of the run truncated at the threshold).  (The player-presence
hypothesis guards against the unrelated select crash on removed entries, see
C2; a player's own messages never remove its own entry, so presence holds for
every admitted connection's whole lifetime until elimination.) -/
theorem rate_limit_fixed_window (playerId : String) (rnd : ℕ → ℚ)
    (msgs : List (ℤ × Option Msg)) (conn : ConnState) (store : Store) (p : Player)
    (hopen : conn.closedWith = none)
    (hcnt : conn.rate.msgCount ≤ MAX_MSGS_PER_SEC)
    (hwin : ∀ q ∈ msgs, q.1 - conn.rate.lastTick < 1000)
    (hpl : alookup store playerId = some p)
    (hover : MAX_MSGS_PER_SEC < conn.rate.msgCount + msgs.length) :
    (runConn playerId conn store rnd msgs).1.closedWith = some 4003 ∧
    (runConn playerId conn store rnd msgs).2 =
      (runConn playerId conn store rnd
        (msgs.take (MAX_MSGS_PER_SEC - conn.rate.msgCount))).2 := by
  induction msgs generalizing conn store p with
  | nil => simp at hover; omega
  | cons q rest ih =>
    obtain ⟨t, m⟩ := q
    have hw : t - conn.rate.lastTick < 1000 := hwin _ (List.mem_cons_self _ _)
    have hnr : ¬ (t - conn.rate.lastTick ≥ 1000) := not_le.mpr hw
    by_cases hov : conn.rate.msgCount + 1 > MAX_MSGS_PER_SEC
    · -- the incoming frame is the first over-limit one: close with 4003
      have hon : onMessage playerId conn store t rnd m =
          ({ rate := { msgCount := conn.rate.msgCount + 1,
                       lastTick := conn.rate.lastTick },
             closedWith := some 4003 }, Outcome.ok store []) := by
        simp [onMessage, hopen, hnr, hov]
      have h0 : MAX_MSGS_PER_SEC - conn.rate.msgCount = 0 := by omega
      rw [h0, List.take_zero]
      have hclosed := runConn_closed playerId rnd 4003 rest
        ({ rate := { msgCount := conn.rate.msgCount + 1, lastTick := conn.rate.lastTick },
           closedWith := some 4003 }) store rfl
      simp [runConn, hon, hclosed]
    · -- still under the limit: both runs take the same first step
      push_neg at hov
      have htake : MAX_MSGS_PER_SEC - conn.rate.msgCount =
          (MAX_MSGS_PER_SEC - (conn.rate.msgCount + 1)) + 1 := by omega
      have hrest : ∀ q ∈ rest, q.1 - conn.rate.lastTick < 1000 :=
        fun q hq => hwin q (List.mem_cons_of_mem _ hq)
      have hover' : MAX_MSGS_PER_SEC < (conn.rate.msgCount + 1) + rest.length := by
        simp at hover; omega
      cases m with
      | none =>
        have hon : onMessage playerId conn store t rnd none =
            ({ rate := { msgCount := conn.rate.msgCount + 1,
                         lastTick := conn.rate.lastTick },
               closedWith := none }, Outcome.ok store []) := by
          simp [onMessage, hopen, hnr, Nat.not_lt.mpr hov]
        have := ih ({ rate := { msgCount := conn.rate.msgCount + 1,
                                lastTick := conn.rate.lastTick },
                      closedWith := none }) store p rfl hov hrest hpl hover'
        rw [htake, List.take_succ_cons]
        simp only [runConn, hon]
        exact ⟨this.1, by rw [Prod.ext_iff] at this ⊢; simp_all⟩
      | some msg =>
        have hnt := @handleMessage_not_thrown_of_present playerId store t rnd msg p hpl
        cases hh : handleMessage playerId store t rnd msg with
        | thrown => exact absurd hh hnt
        | ok s' es =>
          obtain ⟨p', hp'⟩ := handleMessage_preserves_presence hpl hh
          have hon : onMessage playerId conn store t rnd (some msg) =
              ({ rate := { msgCount := conn.rate.msgCount + 1,
                           lastTick := conn.rate.lastTick },
                 closedWith := none }, Outcome.ok s' es) := by
            simp [onMessage, hopen, hnr, Nat.not_lt.mpr hov, hh]
          have := ih ({ rate := { msgCount := conn.rate.msgCount + 1,
                                  lastTick := conn.rate.lastTick },
                        closedWith := none }) s' p' rfl hov hrest hp' hover'
          rw [htake, List.take_succ_cons]
          simp only [runConn, hon]
          exact ⟨this.1, by rw [Prod.ext_iff] at this ⊢; simp_all⟩

def spam41 : List (ℤ × Option Msg) := List.replicate 41 ((500 : ℤ), some Msg.attack)

theorem rate_limit_fixed_window_witness :
    (runConn "1" ⟨⟨0, 0⟩, none⟩ [("1", pLastStand)] rndHalf spam41).1.closedWith =
      some 4003 ∧
    (runConn "1" ⟨⟨0, 0⟩, none⟩ [("1", pLastStand)] rndHalf spam41).2 =
      (runConn "1" ⟨⟨0, 0⟩, none⟩ [("1", pLastStand)] rndHalf (spam41.take 40)).2 :=
  rate_limit_fixed_window "1" rndHalf spam41 ⟨⟨0, 0⟩, none⟩ [("1", pLastStand)]
    pLastStand (by decide) (by decide) (by decide) (by decide) (by decide)

/-- C5: for every attack performed outside the attacker's cooldown window,
every other player in the store within `ATTACK_RANGE` of the attacker
(`hypot ≤ 50`, i.e. squared distance ≤ 50²) gets a damage event broadcast
carrying its id and its new hp `max 0 (hp - DMG)` — never negative — and,
when it survives (`hp - DMG > 0`), its stored hp drops by exactly `DMG`
(e.g. 100 → 85 at distance 20). -/
theorem attack_damages_targets_in_range (playerId id : String) (store : Store)
    (now : ℤ) (rnd : ℕ → ℚ) (a t : Player)
    (hnod : (akeys store).Nodup)
    (ha : alookup store playerId = some a)
    (hcd : ¬ (now - a.lastAttackAt < ATTACK_COOLDOWN_MS))
    (hne : id ≠ playerId)
    (ht : alookup store id = some t) (hhp : t.hp ≠ 0)
    (hin : (a.x - t.x) ^ 2 + (a.y - t.y) ^ 2 ≤ ATTACK_RANGE ^ 2) :
    Event.damage id (max 0 (t.hp - DMG)) ∈ (attackResolve playerId store now rnd).2 ∧
    0 ≤ max 0 (t.hp - DMG) ∧
    (0 < t.hp - DMG →
      alookup (attackResolve playerId store now rnd).1 id =
        some { t with hp := t.hp - DMG }) := by
  obtain ⟨-, -, htargets⟩ := attackResolve_spec playerId store now rnd a hnod ha hcd
  obtain ⟨j, hstore, hev⟩ := htargets id t hne ht
  refine ⟨?_, le_max_left _ _, ?_⟩
  · have hm := hev hin
    rw [if_neg hhp] at hm
    exact hm
  · intro hgt
    rw [hstore, damageResult_hit_survive hin hhp hgt]

/-- C7: `lives` starts at 2; under every successful message-handler step it
never increases for any surviving entry; an entry is removed by game state
exactly when a damage application drives its hp to 0 (`effective hp ≤ DMG`)
with no life left after the decrement (`lives ≤ 1`); and when hp reaches 0
with a life remaining after the decrement the entry stays in the store with
hp reset to 100 and lives decremented. -/
theorem lives_monotone_removal_exact :
    (∀ r1 r2 : ℚ, (initPlayer r1 r2).lives = 2) ∧
    (∀ (playerId : String) (store : Store) (now : ℤ) (rnd : ℕ → ℚ) (msg : Msg)
       (s' : Store) (es : List Event) (id : String) (p p' : Player),
       (akeys store).Nodup →
       handleMessage playerId store now rnd msg = Outcome.ok s' es →
       alookup store id = some p → 0 ≤ p.lives →
       alookup s' id = some p' → p'.lives ≤ p.lives) ∧
    (∀ (playerId : String) (store : Store) (now : ℤ) (rnd : ℕ → ℚ) (msg : Msg)
       (s' : Store) (es : List Event) (id : String) (p : Player),
       (akeys store).Nodup →
       handleMessage playerId store now rnd msg = Outcome.ok s' es →
       alookup store id = some p → alookup s' id = none →
       (if p.hp = 0 then 100 else p.hp) ≤ DMG ∧ p.lives ≤ 1) ∧
    (∀ (playerId : String) (store : Store) (now : ℤ) (rnd : ℕ → ℚ)
       (id : String) (a t : Player),
       (akeys store).Nodup →
       alookup store playerId = some a →
       ¬ (now - a.lastAttackAt < ATTACK_COOLDOWN_MS) →
       id ≠ playerId → alookup store id = some t →
       (a.x - t.x) ^ 2 + (a.y - t.y) ^ 2 ≤ ATTACK_RANGE ^ 2 →
       (if t.hp = 0 then 100 else t.hp) ≤ DMG → 1 < t.lives →
       ∃ nx ny, alookup (attackResolve playerId store now rnd).1 id =
         some { t with x := nx, y := ny, hp := 100, lives := t.lives - 1 }) ∧
    (∀ (playerId : String) (store : Store) (now : ℤ) (rnd : ℕ → ℚ)
       (id : String) (a t : Player),
       (akeys store).Nodup →
       alookup store playerId = some a →
       ¬ (now - a.lastAttackAt < ATTACK_COOLDOWN_MS) →
       id ≠ playerId → alookup store id = some t →
       (a.x - t.x) ^ 2 + (a.y - t.y) ^ 2 ≤ ATTACK_RANGE ^ 2 →
       (if t.hp = 0 then 100 else t.hp) ≤ DMG → t.lives ≤ 1 →
       alookup (attackResolve playerId store now rnd).1 id = none) := by
  refine ⟨fun r1 r2 => rfl, ?_, ?_, ?_, ?_⟩
  · intro playerId store now rnd msg s' es id p p' hnod heq hp h0 hp'
    rcases handleMessage_ok_cases heq with rfl | ⟨q, c, hq, rfl⟩ | ⟨q, nx, ny, hq, rfl, -⟩ |
      ⟨a, ha, hcd, rfl⟩
    · rw [hp] at hp'
      obtain rfl := Option.some.inj hp'
      exact le_refl _
    · rcases alookup_aset_cases hp' with ⟨rfl, rfl⟩ | ⟨-, hold⟩
      · rw [hp] at hq
        obtain rfl := Option.some.inj hq
        exact le_refl _
      · rw [hp] at hold
        obtain rfl := Option.some.inj hold
        exact le_refl _
    · rcases alookup_aset_cases hp' with ⟨rfl, rfl⟩ | ⟨-, hold⟩
      · rw [hp] at hq
        obtain rfl := Option.some.inj hq
        exact le_refl _
      · rw [hp] at hold
        obtain rfl := Option.some.inj hold
        exact le_refl _
    · obtain ⟨hpid, -, htargets⟩ := attackResolve_spec playerId store now rnd a hnod ha hcd
      by_cases hne : id = playerId
      · subst hne
        rw [hpid] at hp'
        obtain rfl := Option.some.inj hp'
        rw [ha] at hp
        obtain rfl := Option.some.inj hp
        exact le_refl _
      · obtain ⟨j, hstore, -⟩ := htargets id p hne hp
        rw [hstore] at hp'
        exact damageResult_lives_le h0 hp'
  · intro playerId store now rnd msg s' es id p hnod heq hp hnone
    rcases handleMessage_ok_cases heq with rfl | ⟨q, c, hq, rfl⟩ | ⟨q, nx, ny, hq, rfl, -⟩ |
      ⟨a, ha, hcd, rfl⟩
    · rw [hp] at hnone
      cases hnone
    · rw [alookup_aset_none hnone] at hp
      cases hp
    · rw [alookup_aset_none hnone] at hp
      cases hp
    · obtain ⟨hpid, -, htargets⟩ := attackResolve_spec playerId store now rnd a hnod ha hcd
      by_cases hne : id = playerId
      · subst hne
        rw [hpid] at hnone
        cases hnone
      · obtain ⟨j, hstore, -⟩ := htargets id p hne hp
        rw [hstore] at hnone
        obtain ⟨h1, h2, -⟩ := damageResult_none_cond hnone
        exact ⟨h1, h2⟩
  · intro playerId store now rnd id a t hnod ha hcd hne ht hin hhp hlv
    obtain ⟨-, -, htargets⟩ := attackResolve_spec playerId store now rnd a hnod ha hcd
    obtain ⟨j, hstore, -⟩ := htargets id t hne ht
    refine ⟨spawnX (rnd j), spawnY (rnd (j + 1)), ?_⟩
    rw [hstore, damageResult_respawn hin hhp hlv]
  · intro playerId store now rnd id a t hnod ha hcd hne ht hin hhp hlv
    obtain ⟨-, -, htargets⟩ := attackResolve_spec playerId store now rnd a hnod ha hcd
    obtain ⟨j, hstore, -⟩ := htargets id t hne ht
    rw [hstore, damageResult_eliminated hin hhp hlv]

/-- C8: every player entry's coordinates lie in the legal rectangle
`[padding, width-padding] × [padding, height-padding]`: the randomized spawn
lands inside it, and every successful message-handler step (move clamping,
attack respawn placement) preserves it for every entry. -/
theorem position_always_in_arena :
    (∀ r1 r2 : ℚ, 0 ≤ r1 → r1 < 1 → 0 ≤ r2 → r2 < 1 → inArena (initPlayer r1 r2)) ∧
    (∀ (playerId : String) (store : Store) (now : ℤ) (rnd : ℕ → ℚ) (msg : Msg)
       (s' : Store) (es : List Event),
       (∀ n, 0 ≤ rnd n ∧ rnd n < 1) →
       (akeys store).Nodup →
       (∀ id p, alookup store id = some p → inArena p) →
       handleMessage playerId store now rnd msg = Outcome.ok s' es →
       ∀ id p', alookup s' id = some p' → inArena p') := by
  constructor
  · intro r1 r2 h10 h11 h20 h21
    have hx := spawnX_mem h10 h11
    have hy := spawnY_mem h20 h21
    exact ⟨hx.1, hx.2, hy.1, hy.2⟩
  · intro playerId store now rnd msg s' es hrnd hnod hstore heq id p' hp'
    rcases handleMessage_ok_cases heq with rfl | ⟨q, c, hq, rfl⟩ | ⟨q, nx, ny, hq, rfl, hb⟩ |
      ⟨a, ha, hcd, rfl⟩
    · exact hstore id p' hp'
    · rcases alookup_aset_cases hp' with ⟨rfl, rfl⟩ | ⟨-, hold⟩
      · exact hstore id q hq
      · exact hstore id p' hold
    · rcases alookup_aset_cases hp' with ⟨rfl, rfl⟩ | ⟨-, hold⟩
      · exact ⟨hb.1, hb.2.1, hb.2.2.1, hb.2.2.2⟩
      · exact hstore id p' hold
    · obtain ⟨hpid, hnones, htargets⟩ := attackResolve_spec playerId store now rnd a hnod ha hcd
      by_cases hne : id = playerId
      · subst hne
        rw [hpid] at hp'
        obtain rfl := Option.some.inj hp'
        exact hstore id a ha
      · cases horig : alookup store id with
        | none =>
          rw [hnones id horig] at hp'
          cases hp'
        | some t =>
          obtain ⟨j, hst, -⟩ := htargets id t hne horig
          rw [hst] at hp'
          rcases damageResult_coords hp' with ⟨hx, hy⟩ | ⟨hx, hy⟩
          · have := hstore id t horig
            exact ⟨hx ▸ this.1, hx ▸ this.2.1, hy ▸ this.2.2.1, hy ▸ this.2.2.2⟩
          · have hxs := spawnX_mem (hrnd j).1 (hrnd j).2
            have hys := spawnY_mem (hrnd (j + 1)).1 (hrnd (j + 1)).2
            exact ⟨hx ▸ hxs.1, hx ▸ hxs.2, hy ▸ hys.1, hy ▸ hys.2⟩

def pAtk : Player :=
  { x := 500, y := 500, character := some "knight", hp := 100, lives := 2, lastAttackAt := 0 }

def pTgt : Player :=
  { x := 520, y := 500, character := some "mage", hp := 100, lives := 2, lastAttackAt := 0 }

def pVictim : Player :=
  { x := 500, y := 500, character := some "mage", hp := 10, lives := 1, lastAttackAt := 0 }

def pRespawn : Player :=
  { x := 500, y := 500, character := some "mage", hp := 10, lives := 2, lastAttackAt := 0 }

def storeAtk : Store := [("A", pAtk), ("B", pTgt)]

def storeElim : Store := [("A", pAtk), ("V", pVictim)]

def storeRespawn : Store := [("A", pAtk), ("R", pRespawn)]

theorem attack_damages_targets_in_range_witness :
    ((pAtk.x - pTgt.x) ^ 2 + (pAtk.y - pTgt.y) ^ 2 ≤ ATTACK_RANGE ^ 2) ∧
    Event.damage "B" (max 0 (pTgt.hp - DMG)) ∈
      (attackResolve "A" storeAtk 1000 rndHalf).2 ∧
    (0 < pTgt.hp - DMG →
      alookup (attackResolve "A" storeAtk 1000 rndHalf).1 "B" =
        some { pTgt with hp := pTgt.hp - DMG }) := by
  have hin : (pAtk.x - pTgt.x) ^ 2 + (pAtk.y - pTgt.y) ^ 2 ≤ ATTACK_RANGE ^ 2 := by
    norm_num [pAtk, pTgt, ATTACK_RANGE]
  have h := attack_damages_targets_in_range "A" "B" storeAtk 1000 rndHalf pAtk pTgt
    (by decide) (by decide) (by decide) (by decide) (by decide) (by decide) hin
  exact ⟨hin, h.1, h.2.2⟩

theorem lives_monotone_removal_exact_witness :
    (initPlayer (1 / 2) (1 / 2)).lives = 2 ∧
    ({ pLastStand with character := some "mage" } : Player).lives ≤ pLastStand.lives ∧
    ((if pVictim.hp = 0 then 100 else pVictim.hp) ≤ DMG ∧ pVictim.lives ≤ 1) ∧
    (∃ nx ny, alookup (attackResolve "A" storeRespawn 1000 rndHalf).1 "R" =
      some { pRespawn with x := nx, y := ny, hp := 100, lives := pRespawn.lives - 1 }) ∧
    alookup (attackResolve "A" storeElim 1000 rndHalf).1 "V" = none := by
  have heq : handleMessage "A" storeElim 1000 rndHalf Msg.attack =
      Outcome.ok [("A", { pAtk with lastAttackAt := 1000 })]
        [Event.damage "V" 0, Event.eliminated "V", Event.remove "V"] := by
    norm_num +decide [handleMessage, attackResolve, attackForEachBody, attackStep, akeys,
      aset_cons, adel_cons, alookup_cons, alookup_nil, aset_nil, adel_nil, storeElim,
      pAtk, pVictim, ATTACK_COOLDOWN_MS, ATTACK_RANGE, DMG, max_def]
  refine ⟨lives_monotone_removal_exact.1 (1 / 2) (1 / 2), ?_, ?_, ?_, ?_⟩
  · exact lives_monotone_removal_exact.2.1 "1" storeTwo 0 rndHalf (Msg.select "mage")
      (aset storeTwo "1" { pLastStand with character := some "mage" })
      [Event.spawn "1" { pLastStand with character := some "mage" }]
      "1" pLastStand { pLastStand with character := some "mage" }
      (by decide) (by decide) (by decide) (by decide) (by decide)
  · exact lives_monotone_removal_exact.2.2.1 "A" storeElim 1000 rndHalf Msg.attack
      [("A", { pAtk with lastAttackAt := 1000 })]
      [Event.damage "V" 0, Event.eliminated "V", Event.remove "V"]
      "V" pVictim (by decide) heq (by decide) (by decide)
  · exact lives_monotone_removal_exact.2.2.2.1 "A" storeRespawn 1000 rndHalf "R"
      pAtk pRespawn (by decide) (by decide) (by decide) (by decide) (by decide)
      (by norm_num [pAtk, pRespawn, ATTACK_RANGE]) (by decide) (by decide)
  · exact lives_monotone_removal_exact.2.2.2.2 "A" storeElim 1000 rndHalf "V"
      pAtk pVictim (by decide) (by decide) (by decide) (by decide) (by decide)
      (by norm_num [pAtk, pVictim, ATTACK_RANGE]) (by decide) (by decide)

theorem position_always_in_arena_witness :
    inArena (initPlayer (1 / 2) (1 / 2)) ∧
    (∀ id p', alookup (aset storeTwo "1"
        { pLastStand with character := some "mage" }) id = some p' → inArena p') := by
  constructor
  · exact position_always_in_arena.1 (1 / 2) (1 / 2)
      (by norm_num) (by norm_num) (by norm_num) (by norm_num)
  · have hstore : ∀ id p, alookup storeTwo id = some p → inArena p := by
      intro id p h
      rcases List.mem_cons.mp (alookup_mem h) with hh | hh
      · obtain ⟨-, rfl⟩ : id = "1" ∧ p = pLastStand := by
          simpa [Prod.ext_iff] using hh
        norm_num [inArena, pLastStand, ARENA]
      · rcases List.mem_cons.mp hh with hh2 | hh2
        · obtain ⟨-, rfl⟩ : id = "2" ∧ p = pHealthy := by
            simpa [Prod.ext_iff] using hh2
          norm_num [inArena, pHealthy, ARENA]
        · simp at hh2
    exact position_always_in_arena.2 "1" storeTwo 0 rndHalf (Msg.select "mage")
      (aset storeTwo "1" { pLastStand with character := some "mage" })
      [Event.spawn "1" { pLastStand with character := some "mage" }]
      (fun n => ⟨by norm_num [rndHalf], by norm_num [rndHalf]⟩)
      (by decide) hstore (by decide)

/-! ## Admission control (single-active-session mode) -/

theorem lookupIP_eq_alookup (m : List (String × ℕ)) (ip : String) :
    lookupIP m ip = alookup m ip := rfl

theorem removeIP_eq_adel (m : List (String × ℕ)) (ip : String) :
    removeIP m ip = adel m ip := rfl

/-- C9: under the single-active-session policy, from any consistent admission
state: a second connection from an occupied IP is denied with code 4002 and
changes nothing; at most one live session per IP exists; the IP-to-session
entry disappears in a step only when the very session that created it closes;
immediately after that session closes the same IP is admitted again (and an
unoccupied IP is admitted, recording the mapping); every step from a
consistent state (with fresh socket ids on connect) is again consistent, and
the initial state is consistent. -/
theorem single_session_per_ip (s : AdmState) (hinv : AdmInv s) :
    (∀ ip sid sid', lookupIP s.activeIPMap ip = some sid →
      admStep s (AdmEvent.connect ip sid') = (s, some 4002)) ∧
    (∀ sid1 sid2 ip, (sid1, ip) ∈ s.live → (sid2, ip) ∈ s.live → sid1 = sid2) ∧
    (∀ ev ip sid, lookupIP s.activeIPMap ip = some sid →
      lookupIP (admStep s ev).1.activeIPMap ip = none → ev = AdmEvent.close sid) ∧
    (∀ ip sid sid', lookupIP s.activeIPMap ip = some sid →
      (admStep (admStep s (AdmEvent.close sid)).1 (AdmEvent.connect ip sid')).2 = none) ∧
    (∀ ip sid, lookupIP s.activeIPMap ip = none →
      admStep s (AdmEvent.connect ip sid) =
        ({ activeIPMap := (ip, sid) :: s.activeIPMap,
           live := (sid, ip) :: s.live }, none)) ∧
    (∀ ev, (∀ ip' sid', ev = AdmEvent.connect ip' sid' →
        sid' ∉ s.live.map (fun q => q.1)) →
      AdmInv (admStep s ev).1) ∧
    AdmInv { activeIPMap := [], live := [] } := by
  obtain ⟨hlm, hnodl, hml, hnodm⟩ := hinv
  have hclose : ∀ ip sid, lookupIP s.activeIPMap ip = some sid →
      admStep s (AdmEvent.close sid) =
        ({ activeIPMap := removeIP s.activeIPMap ip,
           live := s.live.filter (fun e => !(e.1 == sid)) }, none) := by
    intro ip sid hl
    have hmem : (ip, sid) ∈ s.activeIPMap := alookup_mem (lookupIP_eq_alookup .. ▸ hl)
    have hlive : (sid, ip) ∈ s.live := hml _ hmem
    have hfs : (s.live.find? (fun e => e.1 == sid)).isSome := by
      rw [List.find?_isSome]
      exact ⟨(sid, ip), hlive, by simp⟩
    obtain ⟨q, hq⟩ := Option.isSome_iff_exists.mp hfs
    have hq1 : q.1 = sid := by simpa using List.find?_some hq
    have hqmem : q ∈ s.live := List.mem_of_find?_eq_some hq
    have hqip : q = (sid, ip) := by
      refine List.inj_on_of_nodup_map hnodl hqmem hlive ?_
      simpa using hq1
    subst hqip
    simp only [admStep, hq]
    rw [if_pos hl]
  refine ⟨?_, ?_, ?_, ?_, ?_, ?_, ?_⟩
  · intro ip sid sid' hl
    simp [admStep, hl]
  · intro sid1 sid2 ip h1 h2
    have e1 := hlm _ h1
    have e2 := hlm _ h2
    rw [e1] at e2
    exact Option.some.inj e2
  · intro ev ip sid hl hnone
    cases ev with
    | connect ip' sid'' =>
      cases hl' : lookupIP s.activeIPMap ip' with
      | some w =>
        simp only [admStep, hl'] at hnone
        rw [hnone] at hl
        cases hl
      | none =>
        simp only [admStep, hl'] at hnone
        by_cases hip : ip' = ip
        · subst hip
          rw [hl'] at hl
          cases hl
        · have hnone2 : alookup ((ip', sid'') :: s.activeIPMap) ip = none := hnone
          rw [alookup_cons, if_neg hip] at hnone2
          have hl2 : alookup s.activeIPMap ip = some sid := hl
          rw [hnone2] at hl2
          cases hl2
    | close sid'' =>
      cases hf : s.live.find? (fun e => e.1 == sid'') with
      | none =>
        simp only [admStep, hf] at hnone
        rw [hnone] at hl
        cases hl
      | some q =>
        simp only [admStep, hf] at hnone
        by_cases hc : lookupIP s.activeIPMap q.2 = some sid''
        · rw [if_pos hc] at hnone
          by_cases hip : q.2 = ip
          · subst hip
            rw [hc] at hl
            obtain rfl := Option.some.inj hl
            rfl
          · have hnone2 : alookup (adel s.activeIPMap q.2) ip = none := hnone
            rw [alookup_adel_ne (fun hh => hip hh.symm)] at hnone2
            have hl2 : alookup s.activeIPMap ip = some sid := hl
            rw [hnone2] at hl2
            cases hl2
        · rw [if_neg hc] at hnone
          rw [hnone] at hl
          cases hl
  · intro ip sid sid' hl
    rw [hclose ip sid hl]
    have hnone : lookupIP (removeIP s.activeIPMap ip) ip = none := by
      rw [removeIP_eq_adel, lookupIP_eq_alookup]
      exact alookup_adel_self _ _
    simp [admStep, hnone]
  · intro ip sid hl
    simp [admStep, hl]
  · intro ev hfresh
    cases ev with
    | connect ip sid =>
      cases hl : lookupIP s.activeIPMap ip with
      | some w => simpa [admStep, hl] using ⟨hlm, hnodl, hml, hnodm⟩
      | none =>
        have hfr : sid ∉ s.live.map (fun q => q.1) := hfresh ip sid rfl
        simp only [admStep, hl]
        refine ⟨?_, ?_, ?_, ?_⟩
        · intro q hq
          rcases List.mem_cons.mp hq with rfl | hq'
          · rw [lookupIP_eq_alookup, alookup_cons, if_pos rfl]
          · have hipne : ip ≠ q.2 := by
              intro hh
              have hlq := hlm _ hq'
              rw [← hh] at hlq
              rw [hl] at hlq
              cases hlq
            have hgoal : alookup ((ip, sid) :: s.activeIPMap) q.2 = some q.1 := by
              rw [alookup_cons, if_neg hipne]
              exact hlm _ hq'
            exact hgoal
        · rw [List.map_cons, List.nodup_cons]
          exact ⟨hfr, hnodl⟩
        · intro e he
          rcases List.mem_cons.mp he with rfl | he'
          · exact List.mem_cons_self _ _
          · exact List.mem_cons_of_mem _ (hml _ he')
        · rw [List.map_cons, List.nodup_cons]
          constructor
          · intro hm
            have hl2 : alookup s.activeIPMap ip = none := hl
            exact alookup_ne_none_of_mem (by simpa [akeys] using hm) hl2
          · exact hnodm
    | close sid =>
      cases hf : s.live.find? (fun e => e.1 == sid) with
      | none => simpa [admStep, hf] using ⟨hlm, hnodl, hml, hnodm⟩
      | some q =>
        have hq1 : q.1 = sid := by simpa using List.find?_some hf
        have hqmem : q ∈ s.live := List.mem_of_find?_eq_some hf
        simp only [admStep, hf]
        have hsub : (s.live.filter (fun e => !(e.1 == sid))).Sublist s.live :=
          List.filter_sublist _
        have hnodl' : ((s.live.filter (fun e => !(e.1 == sid))).map
            (fun q => q.1)).Nodup :=
          (hsub.map (fun q => q.1)).nodup hnodl
        have hmapsub : ((removeIP s.activeIPMap q.2).map (fun e => e.1)).Nodup := by
          have hs : (removeIP s.activeIPMap q.2).Sublist s.activeIPMap :=
            List.filter_sublist _
          exact (hs.map (fun e => e.1)).nodup hnodm
        refine ⟨?_, hnodl', ?_, ?_⟩
        · intro q0 hq0
          have hq0mem : q0 ∈ s.live := List.mem_of_mem_filter hq0
          have hq0ne : q0.1 ≠ sid := by
            have := (List.mem_filter.mp hq0).2
            simpa using this
          have hbase := hlm _ hq0mem
          by_cases hc : lookupIP s.activeIPMap q.2 = some sid
          · rw [if_pos hc]
            have hipne : q0.2 ≠ q.2 := by
              intro hh
              rw [hh, hc] at hbase
              exact hq0ne (Option.some.inj hbase).symm
            rw [removeIP_eq_adel, lookupIP_eq_alookup,
              alookup_adel_ne hipne, ← lookupIP_eq_alookup]
            exact hbase
          · rw [if_neg hc]
            exact hbase
        · intro e he
          have hem : e ∈ s.activeIPMap := by
            by_cases hc : lookupIP s.activeIPMap q.2 = some sid
            · rw [if_pos hc] at he
              exact List.mem_of_mem_filter he
            · rw [if_neg hc] at he
              exact he
          have helive := hml _ hem
          have hene : e.2 ≠ sid := by
            intro hh
            have hpair : (sid, e.1) ∈ s.live := hh ▸ helive
            have hqe : (sid, e.1) = q := by
              refine List.inj_on_of_nodup_map hnodl hpair hqmem ?_
              simpa using hq1.symm
            have heq : e = (q.2, sid) := by
              have h1 : e.1 = q.2 := by
                have := congrArg (fun z => z.2) hqe
                simpa using this
              exact Prod.ext h1 hh
            have hcq : lookupIP s.activeIPMap q.2 = some sid := by
              rw [lookupIP_eq_alookup]
              exact alookup_of_mem_nodup (by simpa [akeys] using hnodm) (heq ▸ hem)
            rw [if_pos hcq] at he
            have := (List.mem_filter.mp he).2
            rw [heq] at this
            simp at this
          refine List.mem_filter.mpr ⟨helive, ?_⟩
          simpa using hene
        · by_cases hc : lookupIP s.activeIPMap q.2 = some sid
          · rw [if_pos hc]
            exact hmapsub
          · rw [if_neg hc]
            exact hnodm
  · refine ⟨?_, ?_, ?_, ?_⟩ <;> simp

def admS0 : AdmState := { activeIPMap := [("10.0.0.5", 7)], live := [(7, "10.0.0.5")] }

theorem single_session_per_ip_witness :
    AdmInv admS0 ∧
    admStep admS0 (AdmEvent.connect "10.0.0.5" 9) = (admS0, some 4002) ∧
    (admStep (admStep admS0 (AdmEvent.close 7)).1
      (AdmEvent.connect "10.0.0.5" 9)).2 = none := by
  have hinv : AdmInv admS0 := by
    refine ⟨?_, ?_, ?_, ?_⟩ <;> decide
  exact ⟨hinv,
    (single_session_per_ip admS0 hinv).1 "10.0.0.5" 7 9 (by decide),
    (single_session_per_ip admS0 hinv).2.2.2.1 "10.0.0.5" 7 9 (by decide)⟩

end GameServer
